import Mathlib

/-!
# SpanGuard (socialNetwork/src/SocialGraphService/SpanGuard.h)

A shallow embedding of the class template `social_network::SpanGuard<T>`:
an owner of one `std::unique_ptr<T>` that calls `T::Finish()` on the held
object in its destructor and when it is move-assigned over.

* An object of type `T` (a span) is identified by a `Handle`.
* `std::unique_ptr<T>` is `UniquePtr`: `none` is the null pointer.
* A raw `T*` is `RawPtr`.
* A program state is a `World`: the live `SpanGuard` objects by address and
  the sequence of `Finish()` calls made so far, in order.

Only the `Finish()` calls written in `SpanGuard.h` are recorded.  What a
caller does with a pointer obtained from `operator->`, `operator*` or `get`
and what the destructor of `T` does when `unique_ptr` deletes the object are
outside this file.
-/

namespace SocialNetwork

/-- Identity of one object of type `T` (one span). -/
abbrev Handle := Nat

/-- Address of a `SpanGuard` object (`this`, `&other`). -/
abbrev Addr := Nat

/-- The type `std::unique_ptr<T>`: `none` is the null pointer, `some h` owns `h`. -/
abbrev UniquePtr := Option Handle

/-- A raw pointer `T*`. -/
inductive RawPtr where
  | null
  | to (h : Handle)
  deriving DecidableEq, Repr

/-- What a call of a member function does: it returns a value, it signals an
error (an exception, a failed assertion, an abort), or the C++ standard
gives it no defined behaviour. -/
inductive Outcome (α : Type) where
  | returned (v : α)
  | failed
  | undefined
  deriving DecidableEq, Repr

namespace UniquePtr

/-- The call `p.get()`. -/
def get (p : UniquePtr) : RawPtr :=
  match p with
  | none => RawPtr.null
  | some h => RawPtr.to h

/-- The contextual conversion `if (p)`, the same as `p != nullptr`. -/
def toBool (p : UniquePtr) : Bool :=
  match p with
  | none => false
  | some _ => true

/-- Moving out of a `unique_ptr` (`std::move(p)` received by a move
constructor or a move assignment): the pair of the value received and the
value left in `p`, which is null. -/
def moveOut (p : UniquePtr) : UniquePtr × UniquePtr :=
  (p, none)

/-- The expression `*p`: the object pointed to; undefined on a null pointer. -/
def star (p : UniquePtr) : Outcome Handle :=
  match p with
  | none => Outcome.undefined
  | some h => Outcome.returned h

end UniquePtr

/-- The class `SpanGuard<T>`: its only data member is `span_`. -/
structure SpanGuard where
  span_ : UniquePtr
  deriving DecidableEq, Repr

namespace SpanGuard

/-- Source line 12, `explicit SpanGuard(std::unique_ptr<T>&& s) : span_(std::move(s)) {}`:
the new guard, and what is left in the caller's `s`. -/
def ctor (s : UniquePtr) : SpanGuard × UniquePtr :=
  let m := UniquePtr.moveOut s
  (⟨m.1⟩, m.2)

/-- Source lines 15-19, `~SpanGuard() { if (span_) { span_->Finish(); } }`:
the sequence of `Finish` calls after the destructor ran, given the sequence
before it. -/
def dtor (self : SpanGuard) (finished : List Handle) : List Handle :=
  match self.span_ with
  | some h => finished ++ [h]
  | none => finished

/-- Source lines 26-28, `SpanGuard(SpanGuard&& other) noexcept : span_(nullptr)
{ span_ = std::move(other.span_); }`: the new guard and `other` afterwards. -/
def moveCtor (other : SpanGuard) : SpanGuard × SpanGuard :=
  let m := UniquePtr.moveOut other.span_
  (⟨m.1⟩, ⟨m.2⟩)

/-- Source lines 33-38, the body of `operator=(SpanGuard&& other)` under
`this != &other`: `if (span_) { span_->Finish(); } span_ = std::move(other.span_);`.
The result is `*this`, `other` and the sequence of `Finish` calls afterwards. -/
def moveAssignBody (self other : SpanGuard) (finished : List Handle) :
    SpanGuard × SpanGuard × List Handle :=
  let finished1 :=
    match self.span_ with
    | some h => finished ++ [h]
    | none => finished
  let m := UniquePtr.moveOut other.span_
  (⟨m.1⟩, ⟨m.2⟩, finished1)

/-- Source lines 44-45, `T* operator->() { return span_.get(); }`. -/
def arrow (self : SpanGuard) : Outcome RawPtr :=
  Outcome.returned (UniquePtr.get self.span_)

/-- Source lines 48-49, `T& operator*() { return *span_; }`. -/
def deref (self : SpanGuard) : Outcome Handle :=
  UniquePtr.star self.span_

/-- Source lines 52-53, `T* get() { return span_.get(); }`. -/
def get (self : SpanGuard) : Outcome RawPtr :=
  Outcome.returned (UniquePtr.get self.span_)

/-- Source line 56, `explicit operator bool() const { return span_ != nullptr; }`. -/
def toBool (self : SpanGuard) : Bool :=
  UniquePtr.toBool self.span_

end SpanGuard

/-- A program state: the live `SpanGuard` objects by address, and the
`Finish()` calls made so far, oldest first. -/
structure World where
  guards : List (Addr × SpanGuard)
  finished : List Handle
  deriving DecidableEq, Repr

namespace World

/-- The state before any guard exists and before any `Finish` call. -/
def init : World := ⟨[], []⟩

/-- The live guard at address `a`, if there is one. -/
def guard (w : World) (a : Addr) : Option SpanGuard :=
  w.guards.lookup a

/-- The guard at address `a` becomes `g`. -/
def place (w : World) (a : Addr) (g : SpanGuard) : World :=
  { w with guards := (a, g) :: w.guards.filter (fun p => p.1 != a) }

/-- The guard at address `a` is no longer live. -/
def remove (w : World) (a : Addr) : World :=
  { w with guards := w.guards.filter (fun p => p.1 != a) }

/-- The handle that the live guard at `a` holds, if it is live and holds one. -/
def held (w : World) (a : Addr) : Option Handle :=
  match w.guard a with
  | some g => g.span_
  | none => none

/-- Number of `Finish` calls made on `h` so far. -/
def finishCount (w : World) (h : Handle) : Nat :=
  w.finished.count h

end World

/-- One operation of a program on guards.  Addresses name guard objects. -/
inductive Op where
  /-- The definition `SpanGuard g(std::move(s));` with `g` at address `a`. -/
  | construct (a : Addr) (s : UniquePtr)
  /-- The definition `SpanGuard g(std::move(other));` with `g` at address `a`. -/
  | moveConstruct (a : Addr) (other : Addr)
  /-- The assignment `self = std::move(other);`. -/
  | moveAssign (self : Addr) (other : Addr)
  /-- End of the lifetime of the guard at `a`: its destructor runs. -/
  | destroy (a : Addr)
  /-- The call `g.operator->()` on the guard at `a`. -/
  | arrow (a : Addr)
  /-- The expression `*g` on the guard at `a`. -/
  | deref (a : Addr)
  /-- The call `g.get()` on the guard at `a`. -/
  | get (a : Addr)
  /-- The conversion `static_cast<bool>(g)` on the guard at `a`. -/
  | toBool (a : Addr)
  deriving DecidableEq, Repr

/-- One operation on a state.  The result is `none` when the operation is not
one that a C++ program with defined behaviour performs there: a constructor
at an address that already has a live guard, a member function of a guard
that is not live, `*g` on an empty guard. -/
def step (w : World) : Op → Option World
  | Op.construct a s =>
    match w.guard a with
    | some _ => none
    | none => some (w.place a (SpanGuard.ctor s).1)
  | Op.moveConstruct a other =>
    match w.guard a, w.guard other with
    | none, some o =>
      let r := SpanGuard.moveCtor o
      some ((w.place other r.2).place a r.1)
    | _, _ => none
  | Op.moveAssign self other =>
    match w.guard self, w.guard other with
    | some g, some o =>
      if self ≠ other then
        let r := SpanGuard.moveAssignBody g o w.finished
        some (({ w with finished := r.2.2 }.place other r.2.1).place self r.1)
      else
        some w
    | _, _ => none
  | Op.destroy a =>
    match w.guard a with
    | some g => some ({ w with finished := SpanGuard.dtor g w.finished }.remove a)
    | none => none
  | Op.arrow a =>
    match w.guard a with
    | some g =>
      match SpanGuard.arrow g with
      | Outcome.returned _ => some w
      | _ => none
    | none => none
  | Op.deref a =>
    match w.guard a with
    | some g =>
      match SpanGuard.deref g with
      | Outcome.returned _ => some w
      | _ => none
    | none => none
  | Op.get a =>
    match w.guard a with
    | some g =>
      match SpanGuard.get g with
      | Outcome.returned _ => some w
      | _ => none
    | none => none
  | Op.toBool a =>
    match w.guard a with
    | some _ => some w
    | none => none

/-- A sequence of operations, from left to right. -/
def run (w : World) : List Op → Option World
  | [] => some w
  | op :: ops =>
    match step w op with
    | some w1 => run w1 ops
    | none => none

/-- The handles passed non-empty to the constructor from a `unique_ptr`, in
program order. -/
def ctorHandles : List Op → List Handle
  | [] => []
  | Op.construct _ (some h) :: ops => h :: ctorHandles ops
  | _ :: ops => ctorHandles ops

/-- Every constructor call of the sequence that receives a non-empty
`unique_ptr` receives a fresh handle: one that no earlier constructor call
received. -/
def FreshCtors (ops : List Op) : Prop :=
  (ctorHandles ops).Nodup

instance (ops : List Op) : Decidable (FreshCtors ops) := by
  unfold FreshCtors; infer_instance

/-! ## The store of guards -/

theorem lookup_filter_ne {β : Type} (l : List (Nat × β)) (a b : Nat) :
    (l.filter (fun p => p.1 != a)).lookup b = if b = a then none else l.lookup b := by
  induction l with
  | nil => simp
  | cons p l ih =>
    obtain ⟨k, v⟩ := p
    by_cases hk : k = a
    · subst hk
      simp only [List.filter_cons, bne_self_eq_false, Bool.false_eq_true, ↓reduceIte, ih]
      by_cases hb : b = k
      · simp [hb]
      · have : (b == k) = false := by simpa using hb
        simp [List.lookup_cons, this, hb]
    · have hka : (k != a) = true := by simpa using hk
      simp only [List.filter_cons, hka, ↓reduceIte, List.lookup_cons]
      by_cases hb : b = k
      · subst hb
        simp [hk]
      · have : (b == k) = false := by simpa using hb
        simp [this, ih]

namespace World

theorem guard_place_same (w : World) (a : Addr) (g : SpanGuard) :
    (w.place a g).guard a = some g := by
  simp [guard, place, List.lookup_cons]

theorem guard_place_other (w : World) (a b : Addr) (g : SpanGuard) (hb : b ≠ a) :
    (w.place a g).guard b = w.guard b := by
  have : (b == a) = false := by simpa using hb
  simp [guard, place, List.lookup_cons, this, lookup_filter_ne, hb]

theorem guard_remove_same (w : World) (a : Addr) : (w.remove a).guard a = none := by
  simp [guard, remove, lookup_filter_ne]

theorem guard_remove_other (w : World) (a b : Addr) (hb : b ≠ a) :
    (w.remove a).guard b = w.guard b := by
  simp [guard, remove, lookup_filter_ne, hb]

theorem guard_eq_none_of_guards_nil (w : World) (hw : w.guards = []) (a : Addr) :
    w.guard a = none := by
  simp [guard, hw]

theorem held_eq_none_of_guards_nil (w : World) (hw : w.guards = []) (a : Addr) :
    w.held a = none := by
  simp [held, guard_eq_none_of_guards_nil w hw a]

theorem held_of_guard (w : World) (a : Addr) (g : SpanGuard) (hg : w.guard a = some g) :
    w.held a = g.span_ := by
  simp [held, hg]

theorem held_of_guard_none (w : World) (a : Addr) (hg : w.guard a = none) :
    w.held a = none := by
  simp [held, hg]

theorem held_place_same (w : World) (a : Addr) (g : SpanGuard) :
    (w.place a g).held a = g.span_ := by
  simp [held, guard_place_same]

theorem held_place_other (w : World) (a b : Addr) (g : SpanGuard) (hb : b ≠ a) :
    (w.place a g).held b = w.held b := by
  simp [held, guard_place_other w a b g hb]

theorem held_remove_same (w : World) (a : Addr) : (w.remove a).held a = none := by
  simp [held, guard_remove_same]

theorem held_remove_other (w : World) (a b : Addr) (hb : b ≠ a) :
    (w.remove a).held b = w.held b := by
  simp [held, guard_remove_other w a b hb]

end World

/-! ## The invariant of the reachable states -/

/-- What holds of a state reached through constructor calls that received the
handles `used`, each once. -/
structure Inv (w : World) (used : List Handle) : Prop where
  heldUsed : ∀ a h, w.held a = some h → h ∈ used
  heldUnfinished : ∀ a h, w.held a = some h → h ∉ w.finished
  exclusive : ∀ a b h, w.held a = some h → w.held b = some h → a = b
  finishedNodup : w.finished.Nodup
  finishedUsed : ∀ h, h ∈ w.finished → h ∈ used
  usedAccounted : ∀ h, h ∈ used → h ∈ w.finished ∨ ∃ a, w.held a = some h

theorem inv_init : Inv World.init [] := by
  refine ⟨?_, ?_, ?_, ?_, ?_, ?_⟩ <;> simp [World.init, World.held, World.guard]

/-- The guard at `a` finishes what it holds and takes what the guard at `b`
holds; the guard at `b` is left empty. -/
theorem inv_transfer {w w1 : World} {used : List Handle} (hinv : Inv w used) (a b : Addr)
    (hab : a ≠ b)
    (hf : w1.finished = w.finished ++ (w.held a).toList)
    (hh : ∀ c, w1.held c = if c = a then w.held b else if c = b then none else w.held c) :
    Inv w1 used := by
  have key : ∀ c h, w1.held c = some h →
      (c = a ∧ w.held b = some h) ∨ (c ≠ a ∧ c ≠ b ∧ w.held c = some h) := by
    intro c h hc
    rw [hh c] at hc
    by_cases h1 : c = a
    · left; rw [if_pos h1] at hc; exact ⟨h1, hc⟩
    · rw [if_neg h1] at hc
      by_cases h2 : c = b
      · rw [if_pos h2] at hc; cases hc
      · rw [if_neg h2] at hc; exact Or.inr ⟨h1, h2, hc⟩
  refine ⟨?_, ?_, ?_, ?_, ?_, ?_⟩
  · intro c h hc
    rcases key c h hc with ⟨_, hb⟩ | ⟨_, _, hc1⟩
    · exact hinv.heldUsed b h hb
    · exact hinv.heldUsed c h hc1
  · intro c h hc hmem
    rw [hf, List.mem_append] at hmem
    rcases key c h hc with ⟨_, hb⟩ | ⟨hca, _, hc1⟩
    · rcases hmem with hm | hm
      · exact hinv.heldUnfinished b h hb hm
      · have ha : w.held a = some h := by simpa [Option.mem_toList] using hm
        exact hab (hinv.exclusive a b h ha hb)
    · rcases hmem with hm | hm
      · exact hinv.heldUnfinished c h hc1 hm
      · have ha : w.held a = some h := by simpa [Option.mem_toList] using hm
        exact hca (hinv.exclusive c a h hc1 ha)
  · intro c d h hc hd
    rcases key c h hc with ⟨hca, hb⟩ | ⟨hca, hcb, hc1⟩
    · rcases key d h hd with ⟨hda, _⟩ | ⟨_, hdb, hd1⟩
      · rw [hca, hda]
      · exact absurd (hinv.exclusive d b h hd1 hb) hdb
    · rcases key d h hd with ⟨_, hb⟩ | ⟨_, _, hd1⟩
      · exact absurd (hinv.exclusive c b h hc1 hb) hcb
      · exact hinv.exclusive c d h hc1 hd1
  · rw [hf]
    refine List.Nodup.append hinv.finishedNodup ?_ ?_
    · cases w.held a <;> simp
    · intro h hm1 hm2
      have ha : w.held a = some h := by simpa [Option.mem_toList] using hm2
      exact hinv.heldUnfinished a h ha hm1
  · intro h hmem
    rw [hf, List.mem_append] at hmem
    rcases hmem with hm | hm
    · exact hinv.finishedUsed h hm
    · have ha : w.held a = some h := by simpa [Option.mem_toList] using hm
      exact hinv.heldUsed a h ha
  · intro h hu
    rcases hinv.usedAccounted h hu with hm | ⟨c, hc⟩
    · left; rw [hf]; exact List.mem_append_left _ hm
    · by_cases h1 : c = a
      · left
        rw [hf, List.mem_append]
        right
        rw [h1] at hc
        simp [hc]
      · by_cases h2 : c = b
        · right
          refine ⟨a, ?_⟩
          rw [hh a, if_pos rfl, ← h2]
          exact hc
        · right
          refine ⟨c, ?_⟩
          rw [hh c, if_neg h1, if_neg h2]
          exact hc

/-- The guard at `a` finishes what it holds and holds nothing afterwards. -/
theorem inv_drop {w w1 : World} {used : List Handle} (hinv : Inv w used) (a : Addr)
    (hf : w1.finished = w.finished ++ (w.held a).toList)
    (hh : ∀ c, w1.held c = if c = a then none else w.held c) :
    Inv w1 used := by
  have key : ∀ c h, w1.held c = some h → c ≠ a ∧ w.held c = some h := by
    intro c h hc
    rw [hh c] at hc
    by_cases h1 : c = a
    · rw [if_pos h1] at hc; cases hc
    · rw [if_neg h1] at hc; exact ⟨h1, hc⟩
  refine ⟨?_, ?_, ?_, ?_, ?_, ?_⟩
  · intro c h hc
    exact hinv.heldUsed c h (key c h hc).2
  · intro c h hc hmem
    obtain ⟨hca, hc1⟩ := key c h hc
    rw [hf, List.mem_append] at hmem
    rcases hmem with hm | hm
    · exact hinv.heldUnfinished c h hc1 hm
    · have ha : w.held a = some h := by simpa [Option.mem_toList] using hm
      exact hca (hinv.exclusive c a h hc1 ha)
  · intro c d h hc hd
    exact hinv.exclusive c d h (key c h hc).2 (key d h hd).2
  · rw [hf]
    refine List.Nodup.append hinv.finishedNodup ?_ ?_
    · cases w.held a <;> simp
    · intro h hm1 hm2
      have ha : w.held a = some h := by simpa [Option.mem_toList] using hm2
      exact hinv.heldUnfinished a h ha hm1
  · intro h hmem
    rw [hf, List.mem_append] at hmem
    rcases hmem with hm | hm
    · exact hinv.finishedUsed h hm
    · have ha : w.held a = some h := by simpa [Option.mem_toList] using hm
      exact hinv.heldUsed a h ha
  · intro h hu
    rcases hinv.usedAccounted h hu with hm | ⟨c, hc⟩
    · left; rw [hf]; exact List.mem_append_left _ hm
    · by_cases h1 : c = a
      · left
        rw [hf, List.mem_append]
        right
        rw [h1] at hc
        simp [hc]
      · right
        refine ⟨c, ?_⟩
        rw [hh c, if_neg h1]
        exact hc

/-- A new guard at `a` takes `s`, which no constructor call received before. -/
theorem inv_construct {w w1 : World} {used : List Handle} (hinv : Inv w used) (a : Addr)
    (s : UniquePtr) (ha : w.held a = none) (hs : ∀ h, s = some h → h ∉ used)
    (hf : w1.finished = w.finished)
    (hh : ∀ c, w1.held c = if c = a then s else w.held c) :
    Inv w1 (used ++ s.toList) := by
  have key : ∀ c h, w1.held c = some h →
      (c = a ∧ s = some h) ∨ (c ≠ a ∧ w.held c = some h) := by
    intro c h hc
    rw [hh c] at hc
    by_cases h1 : c = a
    · rw [if_pos h1] at hc; exact Or.inl ⟨h1, hc⟩
    · rw [if_neg h1] at hc; exact Or.inr ⟨h1, hc⟩
  refine ⟨?_, ?_, ?_, ?_, ?_, ?_⟩
  · intro c h hc
    rw [List.mem_append]
    rcases key c h hc with ⟨_, hs1⟩ | ⟨_, hc1⟩
    · right; simp [hs1]
    · left; exact hinv.heldUsed c h hc1
  · intro c h hc hmem
    rw [hf] at hmem
    rcases key c h hc with ⟨_, hs1⟩ | ⟨_, hc1⟩
    · exact hs h hs1 (hinv.finishedUsed h hmem)
    · exact hinv.heldUnfinished c h hc1 hmem
  · intro c d h hc hd
    rcases key c h hc with ⟨hca, hs1⟩ | ⟨_, hc1⟩
    · rcases key d h hd with ⟨hda, _⟩ | ⟨_, hd1⟩
      · rw [hca, hda]
      · exact absurd (hinv.heldUsed d h hd1) (hs h hs1)
    · rcases key d h hd with ⟨_, hs1⟩ | ⟨_, hd1⟩
      · exact absurd (hinv.heldUsed c h hc1) (hs h hs1)
      · exact hinv.exclusive c d h hc1 hd1
  · rw [hf]; exact hinv.finishedNodup
  · intro h hmem
    rw [hf] at hmem
    exact List.mem_append_left _ (hinv.finishedUsed h hmem)
  · intro h hu
    rw [List.mem_append] at hu
    rcases hu with hu | hu
    · rcases hinv.usedAccounted h hu with hm | ⟨c, hc⟩
      · left; rw [hf]; exact hm
      · right
        refine ⟨c, ?_⟩
        have h1 : c ≠ a := by
          intro hca
          rw [hca, ha] at hc
          cases hc
        rw [hh c, if_neg h1]
        exact hc
    · right
      refine ⟨a, ?_⟩
      rw [hh a, if_pos rfl]
      simpa [Option.mem_toList] using hu

/-! ## One operation -/

theorem dtor_eq (g : SpanGuard) (finished : List Handle) :
    SpanGuard.dtor g finished = finished ++ g.span_.toList := by
  unfold SpanGuard.dtor
  cases g.span_ <;> simp

theorem moveAssignBody_eq (g o : SpanGuard) (finished : List Handle) :
    SpanGuard.moveAssignBody g o finished
      = (⟨o.span_⟩, ⟨none⟩, finished ++ g.span_.toList) := by
  unfold SpanGuard.moveAssignBody UniquePtr.moveOut
  cases g.span_ <;> simp

theorem step_construct_eq (w : World) (a : Addr) (s : UniquePtr) (ha : w.guard a = none) :
    step w (Op.construct a s) = some (w.place a ⟨s⟩) := by
  simp [step, ha, SpanGuard.ctor, UniquePtr.moveOut]

theorem step_moveConstruct_eq (w : World) (a b : Addr) (o : SpanGuard)
    (ha : w.guard a = none) (hb : w.guard b = some o) :
    step w (Op.moveConstruct a b) = some ((w.place b ⟨none⟩).place a ⟨o.span_⟩) := by
  simp [step, ha, hb, SpanGuard.moveCtor, UniquePtr.moveOut]

theorem step_moveAssign_eq (w : World) (a b : Addr) (g o : SpanGuard)
    (ha : w.guard a = some g) (hb : w.guard b = some o) (hab : a ≠ b) :
    step w (Op.moveAssign a b)
      = some (((World.mk w.guards (w.finished ++ g.span_.toList)).place b ⟨none⟩).place a
          ⟨o.span_⟩) := by
  simp [step, ha, hb, hab, moveAssignBody_eq]

theorem step_moveAssign_self_eq (w : World) (a : Addr) (g : SpanGuard)
    (ha : w.guard a = some g) :
    step w (Op.moveAssign a a) = some w := by
  simp [step, ha]

theorem step_destroy_eq (w : World) (a : Addr) (g : SpanGuard) (ha : w.guard a = some g) :
    step w (Op.destroy a)
      = some ((World.mk w.guards (w.finished ++ g.span_.toList)).remove a) := by
  simp [step, ha, dtor_eq]

theorem held_mk (w : World) (f : List Handle) (c : Addr) :
    (World.mk w.guards f).held c = w.held c := rfl

theorem ctorHandles_construct (a : Addr) (s : UniquePtr) :
    ctorHandles [Op.construct a s] = s.toList := by
  cases s <;> rfl

theorem ctorHandles_cons (op : Op) (ops : List Op) :
    ctorHandles (op :: ops) = ctorHandles [op] ++ ctorHandles ops := by
  cases op with
  | construct a s => cases s <;> rfl
  | _ => rfl

/-- Every operation keeps the invariant, when a constructor call receives a
handle that none received before. -/
theorem inv_step {w w1 : World} {used : List Handle} (hinv : Inv w used) (op : Op)
    (hfresh : ∀ h, h ∈ ctorHandles [op] → h ∉ used) (hs : step w op = some w1) :
    Inv w1 (used ++ ctorHandles [op]) := by
  cases op with
  | construct a s =>
    cases ha : w.guard a with
    | some g => simp [step, ha] at hs
    | none =>
      rw [step_construct_eq w a s ha] at hs
      cases hs
      rw [ctorHandles_construct]
      refine inv_construct hinv a s (World.held_of_guard_none w a ha) ?_ rfl ?_
      · intro h hsh
        apply hfresh
        rw [ctorHandles_construct, hsh]
        simp
      · intro c
        by_cases hc : c = a
        · rw [if_pos hc, hc, World.held_place_same]
        · rw [if_neg hc, World.held_place_other _ _ _ _ hc]
  | moveConstruct a b =>
    cases ha : w.guard a with
    | some g => simp [step, ha] at hs
    | none =>
      cases hb : w.guard b with
      | none => simp [step, ha, hb] at hs
      | some o =>
        rw [step_moveConstruct_eq w a b o ha hb] at hs
        cases hs
        have hab : a ≠ b := by
          intro h; rw [h, hb] at ha; cases ha
        have hempty : w.held a = none := World.held_of_guard_none w a ha
        simp only [ctorHandles, List.append_nil]
        refine inv_transfer hinv a b hab ?_ ?_
        · rw [hempty]; simp [World.place]
        · intro c
          by_cases hc : c = a
          · rw [if_pos hc, hc, World.held_place_same, World.held_of_guard w b o hb]
          · rw [if_neg hc, World.held_place_other _ _ _ _ hc]
            by_cases hcb : c = b
            · rw [if_pos hcb, hcb, World.held_place_same]
            · rw [if_neg hcb, World.held_place_other _ _ _ _ hcb]
  | moveAssign a b =>
    cases ha : w.guard a with
    | none => simp [step, ha] at hs
    | some g =>
      cases hb : w.guard b with
      | none => simp [step, ha, hb] at hs
      | some o =>
        simp only [ctorHandles, List.append_nil]
        by_cases hab : a = b
        · subst hab
          rw [step_moveAssign_self_eq w a g ha] at hs
          cases hs
          exact hinv
        · rw [step_moveAssign_eq w a b g o ha hb hab] at hs
          cases hs
          refine inv_transfer hinv a b hab ?_ ?_
          · rw [World.held_of_guard w a g ha]; simp [World.place]
          · intro c
            by_cases hc : c = a
            · rw [if_pos hc, hc, World.held_place_same, World.held_of_guard w b o hb]
            · rw [if_neg hc, World.held_place_other _ _ _ _ hc]
              by_cases hcb : c = b
              · rw [if_pos hcb, hcb, World.held_place_same]
              · rw [if_neg hcb, World.held_place_other _ _ _ _ hcb, held_mk]
  | destroy a =>
    cases ha : w.guard a with
    | none => simp [step, ha] at hs
    | some g =>
      rw [step_destroy_eq w a g ha] at hs
      cases hs
      simp only [ctorHandles, List.append_nil]
      refine inv_drop hinv a ?_ ?_
      · rw [World.held_of_guard w a g ha]; simp [World.remove]
      · intro c
        by_cases hc : c = a
        · rw [if_pos hc, hc, World.held_remove_same]
        · rw [if_neg hc, World.held_remove_other _ _ _ hc, held_mk]
  | arrow a =>
    cases ha : w.guard a with
    | none => simp [step, ha] at hs
    | some g =>
      simp [step, ha, SpanGuard.arrow] at hs
      subst hs
      simpa [ctorHandles] using hinv
  | deref a =>
    cases ha : w.guard a with
    | none => simp [step, ha] at hs
    | some g =>
      simp only [step, ha, SpanGuard.deref] at hs
      cases hd : UniquePtr.star g.span_ <;> rw [hd] at hs <;> simp at hs
      subst hs
      simpa [ctorHandles] using hinv
  | get a =>
    cases ha : w.guard a with
    | none => simp [step, ha] at hs
    | some g =>
      simp [step, ha, SpanGuard.get] at hs
      subst hs
      simpa [ctorHandles] using hinv
  | toBool a =>
    cases ha : w.guard a with
    | none => simp [step, ha] at hs
    | some g =>
      simp [step, ha] at hs
      subst hs
      simpa [ctorHandles] using hinv

/-! ## Sequences of operations -/

/-- A run keeps the invariant, when its constructor calls receive handles
that are new and pairwise different. -/
theorem inv_run (ops : List Op) : ∀ {w w1 : World} {used : List Handle}, Inv w used →
    (used ++ ctorHandles ops).Nodup → run w ops = some w1 →
    Inv w1 (used ++ ctorHandles ops) := by
  induction ops with
  | nil =>
    intro w w1 used hinv _ hrun
    simp only [run, Option.some.injEq] at hrun
    subst hrun
    simpa [ctorHandles] using hinv
  | cons op ops ih =>
    intro w w1 used hinv hnd hrun
    rw [ctorHandles_cons, ← List.append_assoc] at hnd ⊢
    cases hs : step w op with
    | none => simp [run, hs] at hrun
    | some w2 =>
      simp only [run, hs] at hrun
      have hnd1 : (used ++ ctorHandles [op]).Nodup := (List.nodup_append.mp hnd).1
      have hfresh : ∀ h, h ∈ ctorHandles [op] → h ∉ used := by
        intro h hm hu
        exact (List.nodup_append.mp hnd1).2.2 hu hm
      exact ih (inv_step hinv op hfresh hs) hnd hrun

/-- The invariant of every state reached from the initial state by a run
whose constructor calls receive fresh handles. -/
theorem inv_reachable {ops : List Op} {w : World} (hrun : run World.init ops = some w)
    (hfresh : FreshCtors ops) : Inv w (ctorHandles ops) := by
  have h := inv_run ops inv_init (by simpa using hfresh) hrun
  simpa using h

theorem World.guard_of_held (w : World) (a : Addr) (h : Handle) (ha : w.held a = some h) :
    ∃ g, w.guard a = some g ∧ g.span_ = some h := by
  unfold World.held at ha
  cases hg : w.guard a with
  | none => rw [hg] at ha; cases ha
  | some g => rw [hg] at ha; exact ⟨g, rfl, ha⟩

theorem World.finished_place (w : World) (a : Addr) (g : SpanGuard) :
    (w.place a g).finished = w.finished := rfl

theorem World.finished_remove (w : World) (a : Addr) :
    (w.remove a).finished = w.finished := rfl

/-! ## Concrete programs -/

/-- A program that uses every operation: two guards built from the fresh
handles 7 and 8, one built from an absent handle, a move assignment over a
holding guard, a move construction, a self-assignment, the four access
operations, and the destruction of all four guards. -/
def traceAllOps : List Op :=
  [Op.construct 0 (some 7), Op.construct 1 (some 8), Op.construct 3 none,
   Op.moveAssign 0 1, Op.moveConstruct 2 0, Op.moveAssign 2 2,
   Op.get 2, Op.arrow 3, Op.deref 2, Op.toBool 1,
   Op.destroy 0, Op.destroy 1, Op.destroy 2, Op.destroy 3]

/-- The first six operations of `traceAllOps`: three guards are still live
afterwards, and the guard at address 2 holds the handle 8. -/
def traceMidway : List Op :=
  [Op.construct 0 (some 7), Op.construct 1 (some 8), Op.construct 3 none,
   Op.moveAssign 0 1, Op.moveConstruct 2 0, Op.moveAssign 2 2]

/-- The state after `traceMidway`. -/
def worldMidway : World :=
  ⟨[(2, ⟨some 8⟩), (0, ⟨none⟩), (1, ⟨none⟩), (3, ⟨none⟩)], [7]⟩

/-- A state with a guard holding 7 at address 0, a guard holding 8 at
address 1 and an empty guard at address 2; the handle 5 was finished before. -/
def worldTwoHolding : World :=
  ⟨[(0, ⟨some 7⟩), (1, ⟨some 8⟩), (2, ⟨none⟩)], [5]⟩

/-! ## The claims -/

/-- C1 (exactly-once).  For every sequence of guard operations, run from the
initial state, in which each constructor call receives a fresh or an absent
handle, and which ends with every guard destroyed: every handle that was
passed non-empty to a constructor has exactly one `Finish` call. -/
theorem exactly_once_when_all_destroyed (ops : List Op) (w : World)
    (hrun : run World.init ops = some w) (hfresh : FreshCtors ops) (hdead : w.guards = []) :
    ∀ h, h ∈ ctorHandles ops → w.finishCount h = 1 := by
  intro h hm
  have hinv := inv_reachable hrun hfresh
  rcases hinv.usedAccounted h hm with hf | ⟨a, ha⟩
  · exact List.count_eq_one_of_mem hinv.finishedNodup hf
  · rw [World.held_eq_none_of_guards_nil w hdead a] at ha
    cases ha

/-- C1 at `traceAllOps`: the run ends in the state with no guard and the
`Finish` calls `[7, 8]`, and 7 and 8 each have one call. -/
theorem exactly_once_when_all_destroyed_witness :
    run World.init traceAllOps = some ⟨[], [7, 8]⟩ ∧ FreshCtors traceAllOps ∧
      World.finishCount ⟨[], [7, 8]⟩ 7 = 1 ∧ World.finishCount ⟨[], [7, 8]⟩ 8 = 1 :=
  ⟨by decide, by decide,
    exactly_once_when_all_destroyed traceAllOps ⟨[], [7, 8]⟩ (by decide) (by decide) rfl 7
      (by decide),
    exactly_once_when_all_destroyed traceAllOps ⟨[], [7, 8]⟩ (by decide) (by decide) rfl 8
      (by decide)⟩

/-- C2 (no double-finish).  In every state reached from the initial state by
a sequence of operations in which each constructor call receives a fresh or
an absent handle, every handle has at most one `Finish` call. -/
theorem no_double_finish (ops : List Op) (w : World)
    (hrun : run World.init ops = some w) (hfresh : FreshCtors ops) :
    ∀ h, w.finishCount h ≤ 1 := by
  intro h
  have hinv := inv_reachable hrun hfresh
  exact List.nodup_iff_count_le_one.mp hinv.finishedNodup h

/-- C2 at `traceMidway`, a state with live guards: the handle 7, displaced by
the move assignment, has at most one `Finish` call. -/
theorem no_double_finish_witness :
    run World.init traceMidway = some worldMidway ∧ FreshCtors traceMidway ∧
      worldMidway.finishCount 7 ≤ 1 :=
  ⟨by decide, by decide, no_double_finish traceMidway worldMidway (by decide) (by decide) 7⟩

/-- C3 (reassignment finalizes the displaced handle).  For distinct guards at
`a`, holding `h1`, and at `b`, holding `h2`, the move assignment of `b` to `a`
is defined, makes exactly one `Finish` call, on `h1`, within the assignment
itself, and leaves the guard at `a` holding `h2`. -/
theorem moveAssign_finishes_displaced (w : World) (a b : Addr) (h1 h2 : Handle) (hab : a ≠ b)
    (ha : w.held a = some h1) (hb : w.held b = some h2) :
    ∃ w1, step w (Op.moveAssign a b) = some w1 ∧ w1.finished = w.finished ++ [h1] ∧
      w1.finishCount h1 = w.finishCount h1 + 1 ∧ w1.held a = some h2 := by
  obtain ⟨g, hg, hgs⟩ := World.guard_of_held w a h1 ha
  obtain ⟨o, ho, hos⟩ := World.guard_of_held w b h2 hb
  refine ⟨_, step_moveAssign_eq w a b g o hg ho hab, ?_, ?_, ?_⟩
  · simp [World.finished_place, hgs]
  · simp [World.finishCount, World.finished_place, hgs]
  · rw [World.held_place_same, hos]

/-- C3 at `worldTwoHolding`: assigning the guard at 1 (holding 8) to the guard
at 0 (holding 7) appends 7 to the `Finish` calls and leaves 8 at address 0. -/
theorem moveAssign_finishes_displaced_witness :
    ∃ w1, step worldTwoHolding (Op.moveAssign 0 1) = some w1 ∧ w1.finished = [5] ++ [7] ∧
      w1.finishCount 7 = worldTwoHolding.finishCount 7 + 1 ∧ w1.held 0 = some 8 :=
  moveAssign_finishes_displaced worldTwoHolding 0 1 7 8 (by decide) (by decide) (by decide)

/-- C4 (move empties the source).  For a live guard `g` at `src` and another
address `dst`: move-constructing a guard at `dst` from it, and move-assigning
it to a live guard at `dst`, are both defined; afterwards the liveness check
of the guard at `src` is false and the guard at `dst` holds exactly what `g`
held (the same handle, or nothing when `g` was empty). -/
theorem move_empties_source (w : World) (src dst : Addr) (g : SpanGuard)
    (hsrc : w.guard src = some g) (hne : dst ≠ src) :
    (w.guard dst = none →
      ∃ w1, step w (Op.moveConstruct dst src) = some w1 ∧
        (w1.guard src).map SpanGuard.toBool = some false ∧
        w1.guard dst = some ⟨g.span_⟩) ∧
    (∀ d, w.guard dst = some d →
      ∃ w1, step w (Op.moveAssign dst src) = some w1 ∧
        (w1.guard src).map SpanGuard.toBool = some false ∧
        w1.guard dst = some ⟨g.span_⟩) := by
  constructor
  · intro hdst
    refine ⟨_, step_moveConstruct_eq w dst src g hdst hsrc, ?_, ?_⟩
    · rw [World.guard_place_other _ _ _ _ (Ne.symm hne), World.guard_place_same]
      rfl
    · rw [World.guard_place_same]
  · intro d hdst
    refine ⟨_, step_moveAssign_eq w dst src d g hdst hsrc hne, ?_, ?_⟩
    · rw [World.guard_place_other _ _ _ _ (Ne.symm hne), World.guard_place_same]
      rfl
    · rw [World.guard_place_same]

/-- C4 at `worldTwoHolding`, source the guard at 1 (holding 8): moved into a
new guard at 4 and moved into the live guard at 0. -/
theorem move_empties_source_witness :
    (worldTwoHolding.guard 4 = none →
      ∃ w1, step worldTwoHolding (Op.moveConstruct 4 1) = some w1 ∧
        (w1.guard 1).map SpanGuard.toBool = some false ∧
        w1.guard 4 = some ⟨some 8⟩) ∧
    (∀ d, worldTwoHolding.guard 0 = some d →
      ∃ w1, step worldTwoHolding (Op.moveAssign 0 1) = some w1 ∧
        (w1.guard 1).map SpanGuard.toBool = some false ∧
        w1.guard 0 = some ⟨some 8⟩) :=
  ⟨(move_empties_source worldTwoHolding 1 4 ⟨some 8⟩ (by decide) (by decide)).1,
    (move_empties_source worldTwoHolding 1 0 ⟨some 8⟩ (by decide) (by decide)).2⟩

/-- C5 (self-assignment is a no-op).  For every live guard `g` at `a`, holding
or empty, the assignment of `a` to itself is defined and leaves the whole
state unchanged: the guard holds what it held and no `Finish` call is made.
When `g` holds `h`, destroying it afterwards makes exactly one `Finish` call,
on `h`. -/
theorem self_moveAssign_noop (w : World) (a : Addr) (g : SpanGuard)
    (ha : w.guard a = some g) :
    step w (Op.moveAssign a a) = some w ∧
      (∀ h, g.span_ = some h →
        ∃ w1, run w [Op.moveAssign a a, Op.destroy a] = some w1 ∧
          w1.finished = w.finished ++ [h] ∧ w1.guard a = none) := by
  refine ⟨step_moveAssign_self_eq w a g ha, ?_⟩
  intro h hh
  refine ⟨(World.mk w.guards (w.finished ++ g.span_.toList)).remove a, ?_, ?_, ?_⟩
  · simp only [run, step_moveAssign_self_eq w a g ha, step_destroy_eq w a g ha]
  · simp [World.finished_remove, hh]
  · exact World.guard_remove_same _ a

/-- C5 at `worldTwoHolding`, the guard at 0 holding 7. -/
theorem self_moveAssign_noop_witness :
    step worldTwoHolding (Op.moveAssign 0 0) = some worldTwoHolding ∧
      (∀ h, (⟨some 7⟩ : SpanGuard).span_ = some h →
        ∃ w1, run worldTwoHolding [Op.moveAssign 0 0, Op.destroy 0] = some w1 ∧
          w1.finished = worldTwoHolding.finished ++ [h] ∧ w1.guard 0 = none) :=
  self_moveAssign_noop worldTwoHolding 0 ⟨some 7⟩ (by decide)

/-- C6 (move-construction never finalizes).  For every live source guard at
`b`, holding or empty, and every address `a` without a live guard,
move-constructing a guard at `a` from it is defined and the sequence of
`Finish` calls is the same before and after. -/
theorem moveConstruct_no_finish (w : World) (a b : Addr) (o : SpanGuard)
    (ha : w.guard a = none) (hb : w.guard b = some o) :
    ∃ w1, step w (Op.moveConstruct a b) = some w1 ∧ w1.finished = w.finished := by
  exact ⟨_, step_moveConstruct_eq w a b o ha hb, rfl⟩

/-- C6 at `worldTwoHolding`: a new guard at 4 from the guard at 1. -/
theorem moveConstruct_no_finish_witness :
    ∃ w1, step worldTwoHolding (Op.moveConstruct 4 1) = some w1 ∧ w1.finished = [5] :=
  moveConstruct_no_finish worldTwoHolding 4 1 ⟨some 8⟩ (by decide) (by decide)

/-- C7 (destruction finalizes what is held).  Destroying a live guard is
defined; when the guard holds `h` it makes exactly one `Finish` call, on `h`,
and none on another handle; when the guard is empty it makes none. -/
theorem destroy_finishes_held (w : World) (a : Addr) (g : SpanGuard)
    (ha : w.guard a = some g) :
    ∃ w1, step w (Op.destroy a) = some w1 ∧
      (∀ h, g.span_ = some h → w1.finished = w.finished ++ [h]) ∧
      (g.span_ = none → w1.finished = w.finished) := by
  refine ⟨_, step_destroy_eq w a g ha, ?_, ?_⟩
  · intro h hh
    simp [World.finished_remove, hh]
  · intro hh
    simp [World.finished_remove, hh]

/-- C7 at `worldTwoHolding`, the guard at 1 holding 8. -/
theorem destroy_finishes_held_witness :
    ∃ w1, step worldTwoHolding (Op.destroy 1) = some w1 ∧
      (∀ h, (⟨some 8⟩ : SpanGuard).span_ = some h → w1.finished = [5] ++ [h]) ∧
      ((⟨some 8⟩ : SpanGuard).span_ = none → w1.finished = [5]) :=
  destroy_finishes_held worldTwoHolding 1 ⟨some 8⟩ (by decide)

/-- C8 (empty construction is safe).  Constructing a guard from an absent
handle at an address without a live guard is defined and gives an empty
guard, whose liveness check is false; destroying it right away is defined and
the sequence of `Finish` calls is the one before the construction. -/
theorem empty_construction_safe (w : World) (a : Addr) (ha : w.guard a = none) :
    ∃ w1, step w (Op.construct a none) = some w1 ∧ w1.guard a = some ⟨none⟩ ∧
      (w1.guard a).map SpanGuard.toBool = some false ∧
      ∃ w2, step w1 (Op.destroy a) = some w2 ∧ w2.finished = w.finished ∧
        w2.guard a = none := by
  refine ⟨_, step_construct_eq w a none ha, World.guard_place_same w a ⟨none⟩, ?_, ?_⟩
  · rw [World.guard_place_same]
    rfl
  · refine ⟨_, step_destroy_eq _ a ⟨none⟩ (World.guard_place_same w a ⟨none⟩), ?_, ?_⟩
    · simp [World.finished_remove, World.finished_place]
    · exact World.guard_remove_same _ a

/-- C8 at `worldTwoHolding` and the free address 4. -/
theorem empty_construction_safe_witness :
    ∃ w1, step worldTwoHolding (Op.construct 4 none) = some w1 ∧ w1.guard 4 = some ⟨none⟩ ∧
      (w1.guard 4).map SpanGuard.toBool = some false ∧
      ∃ w2, step w1 (Op.destroy 4) = some w2 ∧ w2.finished = [5] ∧ w2.guard 4 = none :=
  empty_construction_safe worldTwoHolding 4 (by decide)

/-- C9, as stated, fails at the empty guard: `operator->` signals nothing and
returns the null pointer, so it is not true that both `operator->` and
`operator*` fail with an error there. -/
theorem arrow_on_empty_returns_null :
    SpanGuard.arrow ⟨none⟩ = Outcome.returned RawPtr.null ∧
      ¬ (SpanGuard.arrow ⟨none⟩ = Outcome.failed ∧
          SpanGuard.deref ⟨none⟩ = Outcome.failed) := by
  decide

/-- C9 (amended).  On an empty guard `operator->` is not signalled as a
precondition violation: it returns the null pointer, the value that `get()`
returns, and no error.  For `operator*` the header adds no check of its own:
the call is exactly the `operator*` of `std::unique_ptr` on the null pointer,
whatever that library operation does there. -/
theorem arrow_on_empty_unchecked (g : SpanGuard) (hg : g.span_ = none) :
    SpanGuard.arrow g = Outcome.returned RawPtr.null ∧
      SpanGuard.arrow g = SpanGuard.get g ∧
      SpanGuard.arrow g ≠ Outcome.failed ∧
      SpanGuard.deref g = UniquePtr.star none := by
  refine ⟨?_, rfl, ?_, ?_⟩
  · rw [SpanGuard.arrow, hg]
    rfl
  · rw [SpanGuard.arrow]
    exact fun h => Outcome.noConfusion h
  · rw [SpanGuard.deref, hg]

/-- C9 (amended) at the guard built from an absent handle. -/
theorem arrow_on_empty_unchecked_witness :
    SpanGuard.arrow (SpanGuard.ctor none).1 = Outcome.returned RawPtr.null ∧
      SpanGuard.arrow (SpanGuard.ctor none).1 = SpanGuard.get (SpanGuard.ctor none).1 ∧
      SpanGuard.arrow (SpanGuard.ctor none).1 ≠ Outcome.failed ∧
      SpanGuard.deref (SpanGuard.ctor none).1 = UniquePtr.star none :=
  arrow_on_empty_unchecked (SpanGuard.ctor none).1 rfl

/-- C10 (exclusive ownership, I1).  In every state reached from the initial
state by a sequence of operations in which each constructor call receives a
fresh or an absent handle, no handle is held by two distinct live guards. -/
theorem exclusive_ownership (ops : List Op) (w : World)
    (hrun : run World.init ops = some w) (hfresh : FreshCtors ops)
    (a b : Addr) (h : Handle) (hab : a ≠ b) :
    ¬ (w.held a = some h ∧ w.held b = some h) := by
  rintro ⟨ha, hb⟩
  exact hab ((inv_reachable hrun hfresh).exclusive a b h ha hb)

/-- C10 at `traceMidway`: the handle 8, moved from the guard at 1 to the guard
at 0 and from there to the guard at 2, is held by the guard at 2 and not by
the guard at 0 as well. -/
theorem exclusive_ownership_witness :
    run World.init traceMidway = some worldMidway ∧ worldMidway.held 2 = some 8 ∧
      ¬ (worldMidway.held 2 = some 8 ∧ worldMidway.held 0 = some 8) :=
  ⟨by decide, by decide,
    exclusive_ownership traceMidway worldMidway (by decide) (by decide) 2 0 8 (by decide)⟩

/-- C11 (liveness check and initial state).  At an address without a live
guard, the constructor called with the handle `h` gives a guard holding `h`
and the constructor called with an absent handle gives an empty guard; and
for every guard state, `operator bool` is true exactly when the guard holds a
handle. -/
theorem ctor_state_and_liveness (w : World) (a : Addr) (ha : w.guard a = none) :
    (∀ h, ∃ w1, step w (Op.construct a (some h)) = some w1 ∧
        w1.guard a = some ⟨some h⟩ ∧ w1.held a = some h) ∧
    (∃ w1, step w (Op.construct a none) = some w1 ∧
        w1.guard a = some ⟨none⟩ ∧ w1.held a = none) ∧
    (∀ g : SpanGuard, SpanGuard.toBool g = true ↔ ∃ h, g.span_ = some h) := by
  refine ⟨?_, ?_, ?_⟩
  · intro h
    exact ⟨_, step_construct_eq w a (some h) ha, World.guard_place_same w a _,
      World.held_place_same w a _⟩
  · exact ⟨_, step_construct_eq w a none ha, World.guard_place_same w a _,
      World.held_place_same w a _⟩
  · intro g
    obtain ⟨s⟩ := g
    cases s with
    | none => simp [SpanGuard.toBool, UniquePtr.toBool]
    | some h => simp [SpanGuard.toBool, UniquePtr.toBool]

/-- C11 at `worldTwoHolding` and the free address 4. -/
theorem ctor_state_and_liveness_witness :
    (∀ h, ∃ w1, step worldTwoHolding (Op.construct 4 (some h)) = some w1 ∧
        w1.guard 4 = some ⟨some h⟩ ∧ w1.held 4 = some h) ∧
    (∃ w1, step worldTwoHolding (Op.construct 4 none) = some w1 ∧
        w1.guard 4 = some ⟨none⟩ ∧ w1.held 4 = none) ∧
    (∀ g : SpanGuard, SpanGuard.toBool g = true ↔ ∃ h, g.span_ = some h) :=
  ctor_state_and_liveness worldTwoHolding 4 (by decide)

/-- C12 (access does not transfer ownership).  For a live guard holding `h`,
`get()` and `operator->` return the pointer to `h` itself, and each of the two
calls leaves the whole state as it was: the guard still holds `h` and the
sequence of `Finish` calls is unchanged. -/
theorem access_keeps_ownership (w : World) (a : Addr) (h : Handle)
    (ha : w.held a = some h) :
    ∃ g, w.guard a = some g ∧
      SpanGuard.get g = Outcome.returned (RawPtr.to h) ∧
      SpanGuard.arrow g = Outcome.returned (RawPtr.to h) ∧
      (∃ w1, step w (Op.get a) = some w1 ∧ w1.held a = some h ∧
        w1.finished = w.finished ∧ w1 = w) ∧
      (∃ w1, step w (Op.arrow a) = some w1 ∧ w1.held a = some h ∧
        w1.finished = w.finished ∧ w1 = w) := by
  obtain ⟨g, hg, hgs⟩ := World.guard_of_held w a h ha
  refine ⟨g, hg, ?_, ?_, ⟨w, ?_, ha, rfl, rfl⟩, ⟨w, ?_, ha, rfl, rfl⟩⟩
  · simp [SpanGuard.get, UniquePtr.get, hgs]
  · simp [SpanGuard.arrow, UniquePtr.get, hgs]
  · simp [step, hg, SpanGuard.get]
  · simp [step, hg, SpanGuard.arrow]

/-- C12 at `worldTwoHolding`, the guard at 1 holding 8. -/
theorem access_keeps_ownership_witness :
    ∃ g, worldTwoHolding.guard 1 = some g ∧
      SpanGuard.get g = Outcome.returned (RawPtr.to 8) ∧
      SpanGuard.arrow g = Outcome.returned (RawPtr.to 8) ∧
      (∃ w1, step worldTwoHolding (Op.get 1) = some w1 ∧ w1.held 1 = some 8 ∧
        w1.finished = worldTwoHolding.finished ∧ w1 = worldTwoHolding) ∧
      (∃ w1, step worldTwoHolding (Op.arrow 1) = some w1 ∧ w1.held 1 = some 8 ∧
        w1.finished = worldTwoHolding.finished ∧ w1 = worldTwoHolding) :=
  access_keeps_ownership worldTwoHolding 1 8 (by decide)

/-- C13 (scenario C).  For distinct handles `h1`, `h2` and distinct addresses
`a`, `b`: after constructing `g` at `a` from `h1` and `g2` at `b` from `h2` no
`Finish` call was made; the assignment `g = std::move(g2)` makes the call on
`h1`; destroying `g` then makes the call on `h2`; destroying the emptied `g2`
makes none.  The complete sequence of calls is `[h1, h2]`, each handle once. -/
theorem scenario_C_finish_sequence (a b : Addr) (h1 h2 : Handle) (hab : a ≠ b)
    (hh : h1 ≠ h2) :
    (run World.init [Op.construct a (some h1), Op.construct b (some h2)]).map World.finished
        = some [] ∧
    (run World.init [Op.construct a (some h1), Op.construct b (some h2),
        Op.moveAssign a b]).map World.finished = some [h1] ∧
    (run World.init [Op.construct a (some h1), Op.construct b (some h2),
        Op.moveAssign a b, Op.destroy a]).map World.finished = some [h1, h2] ∧
    run World.init [Op.construct a (some h1), Op.construct b (some h2),
        Op.moveAssign a b, Op.destroy a, Op.destroy b] = some ⟨[], [h1, h2]⟩ ∧
    World.finishCount ⟨[], [h1, h2]⟩ h1 = 1 ∧ World.finishCount ⟨[], [h1, h2]⟩ h2 = 1 := by
  have hba : (b == a) = false := by simpa using Ne.symm hab
  have hab1 : (a == b) = false := by simpa using hab
  have hh1 : (h2 == h1) = false := by simpa using Ne.symm hh
  refine ⟨?_, ?_, ?_, ?_, ?_, ?_⟩
  · simp [run, step, World.init, World.place, World.guard, List.lookup, hba,
      SpanGuard.ctor, UniquePtr.moveOut]
  · simp [run, step, World.init, World.place, World.guard, List.lookup, hab, hba, hab1,
      SpanGuard.ctor, UniquePtr.moveOut, SpanGuard.moveAssignBody]
  · simp [run, step, World.init, World.place, World.guard, World.remove, List.lookup, hab, hba,
      hab1, SpanGuard.ctor, UniquePtr.moveOut, SpanGuard.moveAssignBody, SpanGuard.dtor]
  · simp [run, step, World.init, World.place, World.guard, World.remove, List.lookup, hab, hba,
      hab1, SpanGuard.ctor, UniquePtr.moveOut, SpanGuard.moveAssignBody, SpanGuard.dtor,
      Ne.symm hab]
  · simp [World.finishCount, List.count_cons, hh1]
  · simp [World.finishCount, List.count_cons, hh]

/-- C13 with `g` at address 0 built from the handle 7 and `g2` at address 1
built from the handle 8. -/
theorem scenario_C_finish_sequence_witness :
    (run World.init [Op.construct 0 (some 7), Op.construct 1 (some 8)]).map World.finished
        = some [] ∧
    (run World.init [Op.construct 0 (some 7), Op.construct 1 (some 8),
        Op.moveAssign 0 1]).map World.finished = some [7] ∧
    (run World.init [Op.construct 0 (some 7), Op.construct 1 (some 8),
        Op.moveAssign 0 1, Op.destroy 0]).map World.finished = some [7, 8] ∧
    run World.init [Op.construct 0 (some 7), Op.construct 1 (some 8),
        Op.moveAssign 0 1, Op.destroy 0, Op.destroy 1] = some ⟨[], [7, 8]⟩ ∧
    World.finishCount ⟨[], [7, 8]⟩ 7 = 1 ∧ World.finishCount ⟨[], [7, 8]⟩ 8 = 1 :=
  scenario_C_finish_sequence 0 1 7 8 (by decide) (by decide)

/-- C14 (scenario B).  For every handle `h` and distinct addresses `a`, `b`:
after constructing `g1` at `a` from `h` and move-constructing `g2` at `b` from
`g1`, no `Finish` call was made; destroying `g1` makes none and destroying
`g2` makes the one call on `h`, in whichever order the two are destroyed. -/
theorem scenario_B_finish_by_second (a b : Addr) (h : Handle) (hab : a ≠ b) :
    (run World.init [Op.construct a (some h), Op.moveConstruct b a]).map World.finished
        = some [] ∧
    (run World.init [Op.construct a (some h), Op.moveConstruct b a,
        Op.destroy a]).map World.finished = some [] ∧
    run World.init [Op.construct a (some h), Op.moveConstruct b a,
        Op.destroy a, Op.destroy b] = some ⟨[], [h]⟩ ∧
    (run World.init [Op.construct a (some h), Op.moveConstruct b a,
        Op.destroy b]).map World.finished = some [h] ∧
    run World.init [Op.construct a (some h), Op.moveConstruct b a,
        Op.destroy b, Op.destroy a] = some ⟨[], [h]⟩ := by
  have hba : (b == a) = false := by simpa using Ne.symm hab
  have hab1 : (a == b) = false := by simpa using hab
  refine ⟨?_, ?_, ?_, ?_, ?_⟩ <;>
    simp [run, step, World.init, World.place, World.guard, World.remove, List.lookup, hab, hba,
      hab1, SpanGuard.ctor, UniquePtr.moveOut, SpanGuard.moveCtor, SpanGuard.dtor,
      Ne.symm hab]

/-- C14 with `g1` at address 0 built from the handle 7 and `g2` at address 1. -/
theorem scenario_B_finish_by_second_witness :
    (run World.init [Op.construct 0 (some 7), Op.moveConstruct 1 0]).map World.finished
        = some [] ∧
    (run World.init [Op.construct 0 (some 7), Op.moveConstruct 1 0,
        Op.destroy 0]).map World.finished = some [] ∧
    run World.init [Op.construct 0 (some 7), Op.moveConstruct 1 0,
        Op.destroy 0, Op.destroy 1] = some ⟨[], [7]⟩ ∧
    (run World.init [Op.construct 0 (some 7), Op.moveConstruct 1 0,
        Op.destroy 1]).map World.finished = some [7] ∧
    run World.init [Op.construct 0 (some 7), Op.moveConstruct 1 0,
        Op.destroy 1, Op.destroy 0] = some ⟨[], [7]⟩ :=
  scenario_B_finish_by_second 0 1 7 (by decide)

/-- C15 (move assignment onto an empty guard).  For a live empty guard at `a`
and a distinct guard at `b` holding `h2`, the assignment of `b` to `a` is
defined and makes no `Finish` call; afterwards the guard at `a` holds `h2`
and the guard at `b` is empty. -/
theorem moveAssign_onto_empty (w : World) (a b : Addr) (h2 : Handle) (hab : a ≠ b)
    (ha : w.guard a = some ⟨none⟩) (hb : w.held b = some h2) :
    ∃ w1, step w (Op.moveAssign a b) = some w1 ∧ w1.finished = w.finished ∧
      w1.held a = some h2 ∧ w1.guard b = some ⟨none⟩ := by
  obtain ⟨o, ho, hos⟩ := World.guard_of_held w b h2 hb
  refine ⟨_, step_moveAssign_eq w a b ⟨none⟩ o ha ho hab, ?_, ?_, ?_⟩
  · simp [World.finished_place]
  · rw [World.held_place_same, hos]
  · rw [World.guard_place_other _ _ _ _ (Ne.symm hab), World.guard_place_same]

/-- C15 at `worldTwoHolding`: the guard at 1 (holding 8) assigned to the empty
guard at 2. -/
theorem moveAssign_onto_empty_witness :
    ∃ w1, step worldTwoHolding (Op.moveAssign 2 1) = some w1 ∧
      w1.finished = worldTwoHolding.finished ∧
      w1.held 2 = some 8 ∧ w1.guard 1 = some ⟨none⟩ :=
  moveAssign_onto_empty worldTwoHolding 2 1 8 (by decide) (by decide) (by decide)

/-- C16 (move assignment from an empty source).  For a live guard at `a`
holding `h` and a distinct live empty guard at `e`, the assignment of `e` to
`a` is defined and makes exactly one `Finish` call, on `h`; afterwards both
guards are empty, and destroying the guard at `a` is defined and makes no
further call. -/
theorem moveAssign_from_empty (w : World) (a e : Addr) (h : Handle) (hae : a ≠ e)
    (ha : w.held a = some h) (he : w.guard e = some ⟨none⟩) :
    ∃ w1, step w (Op.moveAssign a e) = some w1 ∧ w1.finished = w.finished ++ [h] ∧
      w1.guard a = some ⟨none⟩ ∧ w1.guard e = some ⟨none⟩ ∧
      ∃ w2, step w1 (Op.destroy a) = some w2 ∧ w2.finished = w.finished ++ [h] := by
  obtain ⟨g, hg, hgs⟩ := World.guard_of_held w a h ha
  have hstep := step_moveAssign_eq w a e g ⟨none⟩ hg he hae
  refine ⟨_, hstep, ?_, World.guard_place_same _ a _, ?_, ?_⟩
  · simp [World.finished_place, hgs]
  · rw [World.guard_place_other _ _ _ _ (Ne.symm hae), World.guard_place_same]
  · refine ⟨_, step_destroy_eq _ a ⟨none⟩ (World.guard_place_same _ a _), ?_⟩
    simp [World.finished_remove, World.finished_place, hgs]

/-- C16 at `worldTwoHolding`: the empty guard at 2 assigned to the guard at 0
(holding 7). -/
theorem moveAssign_from_empty_witness :
    ∃ w1, step worldTwoHolding (Op.moveAssign 0 2) = some w1 ∧
      w1.finished = worldTwoHolding.finished ++ [7] ∧
      w1.guard 0 = some ⟨none⟩ ∧ w1.guard 2 = some ⟨none⟩ ∧
      ∃ w2, step w1 (Op.destroy 0) = some w2 ∧
        w2.finished = worldTwoHolding.finished ++ [7] :=
  moveAssign_from_empty worldTwoHolding 0 2 7 (by decide) (by decide) (by decide)

/-- C17 (held handles are unfinished).  In every state reached from the
initial state by a sequence of operations in which each constructor call
receives a fresh or an absent handle: a handle held by a live guard has no
`Finish` call, and a handle with a `Finish` call is held by no live guard.
The state after a move assignment is such a state, so the handle moved in is
unfinished there and the handle finished there is no longer held. -/
theorem held_handles_unfinished (ops : List Op) (w : World)
    (hrun : run World.init ops = some w) (hfresh : FreshCtors ops) :
    (∀ a h, w.held a = some h → w.finishCount h = 0) ∧
      (∀ h, 0 < w.finishCount h → ∀ a, w.held a ≠ some h) := by
  have hinv := inv_reachable hrun hfresh
  have key : ∀ a h, w.held a = some h → w.finishCount h = 0 := by
    intro a h ha
    exact List.count_eq_zero_of_not_mem (hinv.heldUnfinished a h ha)
  refine ⟨key, ?_⟩
  intro h hpos a ha
  rw [key a h ha] at hpos
  exact Nat.lt_irrefl 0 hpos

/-- C17 at `traceMidway`: the handle 8, moved in by a move assignment and
held at address 2, has no `Finish` call; the handle 7, finished by that
assignment, is not held at address 0, where it was. -/
theorem held_handles_unfinished_witness :
    run World.init traceMidway = some worldMidway ∧ worldMidway.held 2 = some 8 ∧
      worldMidway.finishCount 8 = 0 ∧ 0 < worldMidway.finishCount 7 ∧
      worldMidway.held 0 ≠ some 7 :=
  ⟨by decide, by decide,
    (held_handles_unfinished traceMidway worldMidway (by decide) (by decide)).1 2 8
      (by decide),
    by decide,
    (held_handles_unfinished traceMidway worldMidway (by decide) (by decide)).2 7
      (by decide) 0⟩

end SocialNetwork
